import Mathlib

/-!
Shallow embedding of `migrate_stories.py`: a one-pass parser turning a
markdown-like document into Epic/Story records, a body transformer that
rewrites acceptance-criteria bullet lists into checklists, and an emitter
that assigns sequential task identifiers and renders task files.

Strings are modelled through `List Char`; the Python string primitives used
by the script (`str.strip`, `str.startswith`, `in` substring test,
`str.replace(old, new, 1)`, `str.split`, `'\n'.join`) are given explicit
executable definitions below.
-/

/-- Python `\s` / `str.strip` whitespace (ASCII range). -/
def pyIsSpace (c : Char) : Bool :=
  c == ' ' || c == '\t' || c == '\n' || c == '\r' || c == '\x0b' || c == '\x0c'

/-- Python `str.strip()` on a list of characters. -/
def pyStripList (cs : List Char) : List Char :=
  ((cs.dropWhile pyIsSpace).reverse.dropWhile pyIsSpace).reverse

/-- Python `str.strip()`. -/
def pyStrip (s : String) : String :=
  (pyStripList s.toList).asString

/-- List prefix test (Python `str.startswith` over characters). -/
def isPre : List Char → List Char → Bool
  | [], _ => true
  | _ :: _, [] => false
  | a :: as, b :: bs => a == b && isPre as bs

/-- Substring occurrence over characters (Python `pat in s`). -/
def containsList (pat : List Char) : List Char → Bool
  | [] => isPre pat []
  | c :: rest => isPre pat (c :: rest) || containsList pat rest

/-- Python substring test `pat in s`. -/
def containsStr (s pat : String) : Bool :=
  containsList pat.toList s.toList

/-- Python `s.split('\n')` on characters: always at least one field. -/
def splitNlList : List Char → List (List Char)
  | [] => [[]]
  | c :: rest =>
    if c = '\n' then [] :: splitNlList rest
    else match splitNlList rest with
      | h :: t => (c :: h) :: t
      | [] => [[c]]

/-- Python `s.split('\n')`. -/
def splitNl (s : String) : List String :=
  (splitNlList s.toList).map List.asString

/-- Python `'\n'.join(lines)`. -/
def joinNl : List String → String
  | [] => ""
  | [s] => s
  | s :: rest => s ++ "\n" ++ joinNl rest

/-- Parsed story record (`story` dict in `parse_user_stories`). -/
structure Story where
  id_code : String
  title : String
  content : List String
deriving Repr, DecidableEq

/-- Parsed epic record (`current_epic` dict in `parse_user_stories`). -/
structure Epic where
  name : String
  stories : List Story
deriving Repr, DecidableEq

/-- One output file of the emitter, before rendering
(`create_task_file` argument tuple in `main`). -/
structure TaskFile where
  task_id : Nat
  title : String
  content : String
  status : String
  parent : Option Nat
  is_epic : Bool
deriving Repr, DecidableEq

/-- `re.match(r'^##\s+(.*)', line)` with `.group(1).strip()`:
two hash marks, at least one whitespace character, then the trimmed rest. -/
def epicMatchL : List Char → Option String
  | a :: b :: c :: rest =>
    if a == '#' && b == '#' && pyIsSpace c then
      some ((pyStripList ((c :: rest).dropWhile pyIsSpace)).asString)
    else none
  | _ => none

def epicMatch (line : String) : Option String :=
  epicMatchL line.toList

/-- Character class `[\w-]` of the story regex (ASCII word characters). -/
def idChar (c : Char) : Bool :=
  c.isAlpha || c.isDigit || c == '_' || c == '-'

/-- `re.match(r'^###\s+((US-[\w-]+):\s+(.*))', line)` returning
`(group(2).strip(), group(3).strip())`. -/
def storyMatchL : List Char → Option (String × String)
  | a :: b :: c :: d :: rest =>
    if a == '#' && b == '#' && c == '#' && pyIsSpace d then
      match (d :: rest).dropWhile pyIsSpace with
      | u :: s :: hy :: rest2 =>
        if u == 'U' && s == 'S' && hy == '-' then
          let run := rest2.takeWhile idChar
          match rest2.dropWhile idChar with
          | co :: rest4 =>
            if co == ':' && !run.isEmpty then
              match rest4 with
              | e :: _ =>
                if pyIsSpace e then
                  some ((pyStripList ('U' :: 'S' :: '-' :: run)).asString,
                        (pyStripList (rest4.dropWhile pyIsSpace)).asString)
                else none
              | [] => none
            else none
          | [] => none
        else none
      | _ => none
    else none
  | _ => none

def storyMatch (line : String) : Option (String × String) :=
  storyMatchL line.toList

/-- `line.startswith('##')` (the story-content capture bound; the source's
`startswith('##') or startswith('###')` is the same test). -/
def startsHH (l : String) : Bool :=
  isPre ['#', '#'] l.toList

theorem dropWhile_len_le (p : α → Bool) : ∀ l : List α, (l.dropWhile p).length ≤ l.length := by
  intro l
  induction l with
  | nil => simp [List.dropWhile]
  | cons a l ih =>
    by_cases h : p a
    · simp [List.dropWhile, h]
      omega
    · simp [List.dropWhile, h]

/-- The scan loop of `parse_user_stories` (lines 19–53): `done` are the
epics already closed off, `cur` the epic currently open.  The source's
inner capture loop with index backtracking is the `takeWhile`/`dropWhile`
pair: content lines run until the next line starting with `##`, which is
re-processed by the outer loop. -/
def parseLoop (lines : List String) (done : List Epic) (cur : Option Epic) : List Epic :=
  match lines with
  | [] => done ++ cur.toList
  | line :: rest =>
    let st : List Epic × Option Epic :=
      match epicMatch line with
      | some name =>
        if containsStr line "Table of Contents" || containsStr line "Appendix" then
          (done, cur)
        else
          (done ++ cur.toList, some ⟨name, []⟩)
      | none => (done, cur)
    match storyMatch line, st.2 with
    | some ct, some e =>
      parseLoop (rest.dropWhile (fun l => !startsHH l)) st.1
        (some ⟨e.name, e.stories ++ [⟨ct.1, ct.2, rest.takeWhile (fun l => !startsHH l)⟩]⟩)
    | _, _ => parseLoop rest st.1 st.2
termination_by lines.length
decreasing_by
  · simp only [List.length_cons]
    have h := dropWhile_len_le (fun l => !startsHH l) rest
    omega
  · simp only [List.length_cons]
    omega

/-- `parse_user_stories` on the document text (the file read is out of
scope; the function receives the file's content). -/
def parse_user_stories (doc : String) : List Epic :=
  parseLoop (splitNl doc) [] none

/-- Literal marker searched for by the body transformation. -/
def acMarker : String := "**Acceptance Criteria:**"

/-- Python `s.replace(old, new, 1)` over characters: first occurrence only. -/
def replaceFirstList (pat rep : List Char) : List Char → List Char
  | [] => []
  | c :: rest =>
    if isPre pat (c :: rest) then rep ++ (c :: rest).drop pat.length
    else c :: replaceFirstList pat rep rest

/-- Python `s.replace(old, new, 1)`. -/
def replaceFirst (s pat rep : String) : String :=
  (replaceFirstList pat.toList rep.toList s.toList).asString

/-- `line.strip().startswith("- ")`. -/
def startsDash (line : String) : Bool :=
  isPre ['-', ' '] (pyStripList line.toList)

/-- The acceptance-criteria rewriting loop of `main` (lines 125–138),
over the story text split into lines, with the `in_ac_section` flag. -/
def transformLines : List String → Bool → List String
  | [], _ => []
  | line :: rest, in_ac =>
    if containsStr line acMarker then
      "## Acceptance Criteria" :: transformLines rest true
    else if in_ac && startsDash line then
      replaceFirst line "- " "- [ ] " :: transformLines rest in_ac
    else
      line :: transformLines rest in_ac

/-- Value of the `in_ac_section` flag after scanning the given lines. -/
def acAfter : List String → Bool → Bool
  | [], b => b
  | line :: rest, b =>
    if containsStr line acMarker then acAfter rest true
    else acAfter rest b

/-- Story body preparation in `main` (lines 119 and 125–139):
join, `strip()`, rewrite acceptance criteria, join back. -/
def transform_story_text (content : List String) : String :=
  let story_text := pyStrip (joinNl content)
  joinNl (transformLines (splitNl story_text) false)

/-- Characters removed from the filename title,
`re.sub(r'[\\/*?:"<>|]', "", title)`. -/
def badFileChar (c : Char) : Bool :=
  c == '\\' || c == '/' || c == '*' || c == '?' || c == ':' ||
  c == '\"' || c == '<' || c == '>' || c == '|'

/-- Filename built by `create_task_file` (lines 60–61). -/
def task_file_name (task_id : Nat) (title : String) : String :=
  let filename_title := (title.toList.filter (fun c => !badFileChar c)).asString
  "task-" ++ toString task_id ++ " - " ++ filename_title ++ ".md"

/-- File text written by `create_task_file` (lines 66–86).  The Python
`if parent:` test treats `0` like `None` (integer truthiness). -/
def task_file_text (task_id : Nat) (title status : String) (parent : Option Nat)
    (is_epic : Bool) (created_date : String) (content : String) : String :=
  "---\n" ++
  "id: TASK-" ++ toString task_id ++ "\n" ++
  "title: " ++ title ++ "\n" ++
  "status: " ++ status ++ "\n" ++
  "assignee: []\n" ++
  "created_date: \x27" ++ created_date ++ "\x27\n" ++
  (if is_epic then "labels: [\x27Epic\x27]\n" else "labels: []\n") ++
  (match parent with
   | some p => if p == 0 then "" else "parent: TASK-" ++ toString p ++ "\n"
   | none => "") ++
  "dependencies: []\n" ++
  "---\n\n" ++
  content

/-- `create_task_file`: the (filename, file text) pair it writes. -/
def create_task_file (task_id : Nat) (title content : String) (status : String)
    (parent : Option Nat) (is_epic : Bool) (created_date : String) : String × String :=
  (task_file_name task_id title,
   task_file_text task_id title status parent is_epic created_date content)

/-- Story emission loop of `main` (lines 116–152):
one file per story, counter incremented per file. -/
def emitStories (epic_id : Nat) : Nat → List Story → List TaskFile × Nat
  | counter, [] => ([], counter)
  | counter, story :: rest =>
    let full_title := story.id_code ++ " " ++ story.title
    let file : TaskFile :=
      ⟨counter, full_title, transform_story_text story.content, "To Do", some epic_id, false⟩
    let r := emitStories epic_id (counter + 1) rest
    (file :: r.1, r.2)

/-- Epic emission loop of `main` (lines 105–152): epic file, then its
stories, then the remaining epics, all sharing one counter. -/
def emitEpics : Nat → List Epic → List TaskFile × Nat
  | counter, [] => ([], counter)
  | counter, epic :: rest =>
    let epicFile : TaskFile :=
      ⟨counter, epic.name, "Parent Epic for related user stories.", "To Do", none, true⟩
    let s := emitStories counter (counter + 1) epic.stories
    let r := emitEpics s.2 rest
    (epicFile :: (s.1 ++ r.1), r.2)

/-- All task files produced by `main`, `task_counter` starting at 1. -/
def emit (epics : List Epic) : List TaskFile :=
  (emitEpics 1 epics).1

/-- Parse-and-emit pipeline of `main` on a document text. -/
def pipeline (doc : String) : List TaskFile :=
  emit (parse_user_stories doc)

/-- Destination directory contents: file name to file text. -/
def Dir : Type := String → Option String

def startsWithStr (p s : String) : Bool := isPre p.toList s.toList

def endsWithStr (p s : String) : Bool := isPre p.toList.reverse s.toList.reverse

/-- The clear step of `main` (lines 97–99): delete every
`task-*.md` file in the destination directory. -/
def clear_tasks (d : Dir) : Dir := fun n =>
  if startsWithStr "task-" n && endsWithStr ".md" n then none else d n

/-- One `create_task_file` call as a directory update. -/
def writeTask (created_date : String) (d : Dir) (t : TaskFile) : Dir := fun n =>
  let fc := create_task_file t.task_id t.title t.content t.status t.parent t.is_epic created_date
  if n = fc.1 then some fc.2 else d n

/-- All file writes of one `main` run, in emission order. -/
def writeAll (files : List TaskFile) (created_date : String) (d : Dir) : Dir :=
  files.foldl (writeTask created_date) d

/-- Full effect of `main` on the destination directory: clear, parse, emit.
`created_date` abstracts `datetime.datetime.now()` at run time. -/
def run_main (doc created_date : String) (d : Dir) : Dir :=
  writeAll (pipeline doc) created_date (clear_tasks d)

theorem storyMatchL_shape (cs : List Char) (p : String × String) (h : storyMatchL cs = some p) :
    ∃ rest, cs = '#' :: '#' :: '#' :: rest := by
  match cs with
  | [] => simp [storyMatchL] at h
  | [a] => simp [storyMatchL] at h
  | [a, b] => simp [storyMatchL] at h
  | [a, b, c] => simp [storyMatchL] at h
  | a :: b :: c :: d :: rest =>
    by_cases hg : (a == '#' && b == '#' && c == '#' && pyIsSpace d) = true
    · simp only [Bool.and_eq_true, beq_iff_eq] at hg
      obtain ⟨⟨⟨ha, hb⟩, hc⟩, _⟩ := hg
      exact ⟨d :: rest, by rw [ha, hb, hc]⟩
    · rw [storyMatchL, if_neg hg] at h
      exact absurd h (by simp)

theorem epicMatchL_shape (cs : List Char) (nm : String) (h : epicMatchL cs = some nm) :
    ∃ c rest, cs = '#' :: '#' :: c :: rest ∧ pyIsSpace c = true := by
  match cs with
  | [] => simp [epicMatchL] at h
  | [a] => simp [epicMatchL] at h
  | [a, b] => simp [epicMatchL] at h
  | a :: b :: c :: rest =>
    by_cases hg : (a == '#' && b == '#' && pyIsSpace c) = true
    · simp only [Bool.and_eq_true, beq_iff_eq] at hg
      obtain ⟨⟨ha, hb⟩, hc⟩ := hg
      exact ⟨c, rest, by rw [ha, hb], hc⟩
    · rw [epicMatchL, if_neg hg] at h
      exact absurd h (by simp)

/-- An epic heading never matches the story regex and vice versa:
the character at index 2 is `#` for a story and whitespace for an epic. -/
theorem epicMatch_of_storyMatch (line : String) (p : String × String)
    (h : storyMatch line = some p) : epicMatch line = none := by
  obtain ⟨rest, hcs⟩ := storyMatchL_shape line.toList p h
  unfold epicMatch
  rw [hcs]
  rfl

theorem storyMatch_of_epicMatch (line : String) (nm : String)
    (h : epicMatch line = some nm) : storyMatch line = none := by
  obtain ⟨c, rest, hcs, hc⟩ := epicMatchL_shape line.toList nm h
  unfold storyMatch
  rw [hcs]
  match rest with
  | [] => rfl
  | d :: rest2 =>
    have hcne : (c == '#') = false := by
      by_cases he : c = '#'
      · subst he
        simp [pyIsSpace] at hc
      · simp [he]
    simp [storyMatchL, hcne]

theorem parseLoop_nil (done : List Epic) (cur : Option Epic) :
    parseLoop [] done cur = done ++ cur.toList := by
  rw [parseLoop.eq_def]

theorem parseLoop_cons_epic (line : String) (rest : List String) (done : List Epic)
    (cur : Option Epic) (name : String)
    (he : epicMatch line = some name)
    (hx : (containsStr line "Table of Contents" || containsStr line "Appendix") = false) :
    parseLoop (line :: rest) done cur = parseLoop rest (done ++ cur.toList) (some ⟨name, []⟩) := by
  have hs := storyMatch_of_epicMatch line name he
  rw [parseLoop.eq_def]
  simp [he, hs, hx]

theorem parseLoop_cons_excluded (line : String) (rest : List String) (done : List Epic)
    (cur : Option Epic) (name : String)
    (he : epicMatch line = some name)
    (hx : (containsStr line "Table of Contents" || containsStr line "Appendix") = true) :
    parseLoop (line :: rest) done cur = parseLoop rest done cur := by
  have hs := storyMatch_of_epicMatch line name he
  rw [parseLoop.eq_def]
  simp [he, hs, hx]

theorem parseLoop_cons_story (line : String) (rest : List String) (done : List Epic)
    (e : Epic) (code title : String)
    (hs : storyMatch line = some (code, title)) :
    parseLoop (line :: rest) done (some e) =
      parseLoop (rest.dropWhile (fun l => !startsHH l)) done
        (some ⟨e.name, e.stories ++ [⟨code, title, rest.takeWhile (fun l => !startsHH l)⟩]⟩) := by
  have he := epicMatch_of_storyMatch line (code, title) hs
  rw [parseLoop.eq_def]
  simp [he, hs]

theorem parseLoop_cons_story_nocur (line : String) (rest : List String) (done : List Epic)
    (code title : String)
    (hs : storyMatch line = some (code, title)) :
    parseLoop (line :: rest) done none = parseLoop rest done none := by
  have he := epicMatch_of_storyMatch line (code, title) hs
  rw [parseLoop.eq_def]
  simp [he, hs]

theorem parseLoop_cons_other (line : String) (rest : List String) (done : List Epic)
    (cur : Option Epic)
    (he : epicMatch line = none)
    (hs : storyMatch line = none) :
    parseLoop (line :: rest) done cur = parseLoop rest done cur := by
  rw [parseLoop.eq_def]
  simp [he, hs]

/-- The source document of the spec's example scenario. -/
def exampleDoc : String :=
  "## Alpha Epic\n### US-100: Do Thing\n\n**Acceptance Criteria:**\n- Works"

theorem splitNl_exampleDoc :
    splitNl exampleDoc =
      ["## Alpha Epic", "### US-100: Do Thing", "", "**Acceptance Criteria:**", "- Works"] := by
  rfl

theorem parse_exampleDoc :
    parse_user_stories exampleDoc =
      [⟨"Alpha Epic", [⟨"US-100", "Do Thing", ["", "**Acceptance Criteria:**", "- Works"]⟩]⟩] := by
  rw [parse_user_stories, splitNl_exampleDoc]
  rw [parseLoop_cons_epic _ _ _ _ "Alpha Epic" (by rfl) (by rfl)]
  rw [parseLoop_cons_story _ _ _ _ "US-100" "Do Thing" (by rfl)]
  rw [show List.dropWhile (fun l => !startsHH l) ["", "**Acceptance Criteria:**", "- Works"]
        = ([] : List String) from rfl]
  rw [parseLoop_nil]
  rfl

/-- C1: on the document `## Alpha Epic` / `### US-100: Do Thing` / blank /
`**Acceptance Criteria:**` / `- Works`, the pipeline emits exactly two
files: an Epic (id 1, title "Alpha Epic") and a Story (id 2, title
"US-100 Do Thing", parent 1) whose body is
`## Acceptance Criteria` newline `- [ ] Works`. -/
theorem example_scenario_output :
    pipeline exampleDoc =
      [⟨1, "Alpha Epic", "Parent Epic for related user stories.", "To Do", none, true⟩,
       ⟨2, "US-100 Do Thing", "## Acceptance Criteria\n- [ ] Works", "To Do", some 1, false⟩] := by
  rw [pipeline, parse_exampleDoc]
  rfl

theorem toList_asString (l : List Char) : (List.asString l).toList = l := rfl

theorem transformLines_append (xs ys : List String) (b : Bool) :
    transformLines (xs ++ ys) b = transformLines xs b ++ transformLines ys (acAfter xs b) := by
  induction xs generalizing b with
  | nil => simp [transformLines, acAfter]
  | cons x xs ih =>
    by_cases hm : containsStr x acMarker
    · simp [transformLines, acAfter, hm, ih]
    · by_cases hb : (b && startsDash x) = true
      · simp [transformLines, acAfter, hm, hb, ih]
      · simp [transformLines, acAfter, hm, hb, ih]

theorem acAfter_append (xs ys : List String) (b : Bool) :
    acAfter (xs ++ ys) b = acAfter ys (acAfter xs b) := by
  induction xs generalizing b with
  | nil => simp [acAfter]
  | cons x xs ih =>
    by_cases hm : containsStr x acMarker
    · simp [acAfter, hm, ih]
    · simp [acAfter, hm, ih]

theorem acAfter_true (ls : List String) : acAfter ls true = true := by
  induction ls with
  | nil => rfl
  | cons l ls ih =>
    by_cases hm : containsStr l acMarker
    · simp [acAfter, hm, ih]
    · simp [acAfter, hm, ih]

theorem transformLines_marker (m : String) (rest : List String) (b : Bool)
    (hm : containsStr m acMarker = true) :
    transformLines (m :: rest) b = "## Acceptance Criteria" :: transformLines rest true := by
  simp [transformLines, hm]

theorem transformLines_bullet (line : String) (rest : List String)
    (hm : containsStr line acMarker = false)
    (hd : startsDash line = true) :
    transformLines (line :: rest) true =
      replaceFirst line "- " "- [ ] " :: transformLines rest true := by
  simp [transformLines, hm, hd]

theorem acAfter_marker (pre mid : List String) (m : String) (b : Bool)
    (hm : containsStr m acMarker = true) :
    acAfter ((pre ++ m :: mid) : List String) b = true := by
  rw [acAfter_append]
  rw [show acAfter (m :: mid) (acAfter pre b) = acAfter mid true from by simp [acAfter, hm]]
  exact acAfter_true mid

/-- C3: any content block in which a marker line is immediately followed by
the bullets `- A` and `- B` transforms into the heading
`## Acceptance Criteria` followed by `- [ ] A` and `- [ ] B`, in order,
each bullet rewritten only at its first `- ` occurrence; lines before and
after are transformed independently. -/
theorem acceptance_criteria_round_trip (pre post : List String) (m : String) (b : Bool)
    (hm : containsStr m acMarker = true) :
    transformLines (pre ++ m :: "- A" :: "- B" :: post) b =
      transformLines pre b ++
        "## Acceptance Criteria" :: "- [ ] A" :: "- [ ] B" :: transformLines post true := by
  rw [transformLines_append, transformLines_marker _ _ _ hm,
      transformLines_bullet "- A" _ (by rfl) (by rfl),
      transformLines_bullet "- B" _ (by rfl) (by rfl)]
  rfl

/-- C3 witness: concrete instance of the round trip. -/
theorem acceptance_criteria_round_trip_witness :
    transformLines (["intro"] ++ "**Acceptance Criteria:**" :: "- A" :: "- B" :: ["tail"]) false =
      transformLines ["intro"] false ++
        "## Acceptance Criteria" :: "- [ ] A" :: "- [ ] B" :: transformLines ["tail"] true :=
  acceptance_criteria_round_trip ["intro"] ["tail"] "**Acceptance Criteria:**" false (by rfl)

/-- C4: once a marker line has been seen, the `in_ac_section` flag is true
after every remaining line of the story body (non-bullet lines never turn
it off), and any later line whose stripped text starts with `- ` (and is
not itself a marker line, which the marker rule rewrites first) is
converted to a checklist item no matter what lines occur in between. -/
theorem ac_mode_never_exits (pre mid rest : List String) (m line : String) (b : Bool)
    (hm : containsStr m acMarker = true)
    (hnm : containsStr line acMarker = false)
    (hd : startsDash line = true) :
    acAfter (pre ++ m :: mid) b = true ∧
    transformLines ((pre ++ m :: mid) ++ line :: rest) b =
      transformLines (pre ++ m :: mid) b ++
        replaceFirst line "- " "- [ ] " :: transformLines rest true := by
  have hstate := acAfter_marker pre mid m b hm
  refine ⟨hstate, ?_⟩
  rw [transformLines_append, hstate, transformLines_bullet line rest hnm hd]

/-- C4 witness: a second bulleted list far after the marker is still
converted, across intervening non-bullet lines. -/
theorem ac_mode_never_exits_witness :
    acAfter (["a"] ++ "**Acceptance Criteria:**" :: ["- one", "prose", "Other list:"]) false = true ∧
    transformLines ((["a"] ++ "**Acceptance Criteria:**" :: ["- one", "prose", "Other list:"]) ++
        "- two" :: ["end"]) false =
      transformLines (["a"] ++ "**Acceptance Criteria:**" :: ["- one", "prose", "Other list:"]) false ++
        replaceFirst "- two" "- " "- [ ] " :: transformLines ["end"] true :=
  ac_mode_never_exits ["a"] ["- one", "prose", "Other list:"] ["end"]
    "**Acceptance Criteria:**" "- two" false (by rfl) (by rfl) (by rfl)

theorem all_takeWhile (p : α → Bool) : ∀ l : List α, (l.takeWhile p).all p = true := by
  intro l
  induction l with
  | nil => rfl
  | cons a l ih =>
    cases ha : p a
    · simp [List.takeWhile_cons, ha]
    · simp [List.takeWhile_cons, ha, ih]

theorem dropWhile_head_false (p : α → Bool) :
    ∀ l : List α, ∀ c cs, l.dropWhile p = c :: cs → p c = false := by
  intro l
  induction l with
  | nil => intro c cs h; simp [List.dropWhile] at h
  | cons a l ih =>
    intro c cs h
    cases ha : p a
    · rw [List.dropWhile_cons, ha] at h
      simp at h
      rw [← h.1]
      exact ha
    · rw [List.dropWhile_cons, ha] at h
      simp at h
      exact ih c cs h

theorem dropWhile_decomp (p : α → Bool) (l : List α) :
    ∃ u, l = u ++ l.dropWhile p ∧ u.all p = true :=
  ⟨l.takeWhile p, (List.takeWhile_append_dropWhile p l).symm, all_takeWhile p l⟩

theorem pyStripList_decomp (cs : List Char) :
    ∃ pre suf, cs = pre ++ pyStripList cs ++ suf ∧
      pre.all pyIsSpace = true ∧ suf.all pyIsSpace = true := by
  obtain ⟨u, hu, hua⟩ := dropWhile_decomp pyIsSpace cs
  obtain ⟨v, hv, hva⟩ := dropWhile_decomp pyIsSpace (cs.dropWhile pyIsSpace).reverse
  refine ⟨u, v.reverse, ?_, hua, ?_⟩
  · have hmid : cs.dropWhile pyIsSpace = pyStripList cs ++ v.reverse := by
      unfold pyStripList
      conv_lhs => rw [← List.reverse_reverse (cs.dropWhile pyIsSpace), hv]
      rw [List.reverse_append]
    rw [List.append_assoc, ← hmid]
    exact hu
  · rw [List.all_reverse]
    exact hva

theorem takeWhile_dropWhile_nil (p : α → Bool) (l : List α) :
    (l.dropWhile p).takeWhile p = [] := by
  induction l with
  | nil => rfl
  | cons a l ih =>
    cases ha : p a
    · simp [List.dropWhile_cons, ha, List.takeWhile_cons]
    · simp [List.dropWhile_cons, ha, ih]

theorem dropWhile_append_single (p : α → Bool) (c : α) (hc : p c = false) :
    ∀ l : List α, (l ++ [c]).dropWhile p = l.dropWhile p ++ [c] := by
  intro l
  induction l with
  | nil => simp [List.dropWhile, hc]
  | cons a l ih =>
    cases ha : p a
    · simp [List.dropWhile_cons, ha]
    · simp only [List.cons_append, List.dropWhile_cons, ha]
      exact ih

theorem pyStripList_no_trailing (cs : List Char) :
    (pyStripList cs).reverse.takeWhile pyIsSpace = [] := by
  unfold pyStripList
  rw [List.reverse_reverse]
  exact takeWhile_dropWhile_nil pyIsSpace _

theorem pyStripList_no_leading (cs : List Char) :
    (pyStripList cs).takeWhile pyIsSpace = [] := by
  unfold pyStripList
  cases hd : cs.dropWhile pyIsSpace with
  | nil => simp
  | cons c t =>
    have hc : pyIsSpace c = false := dropWhile_head_false pyIsSpace cs c t hd
    rw [List.reverse_cons, dropWhile_append_single pyIsSpace c hc, List.reverse_append]
    simp [List.takeWhile_cons, hc]

/-- C6 counterexample: the content block with a leading blank line and the
line `  x` keeps, per the claim, the two leading spaces of its first
non-blank line; the code's `.strip()` of the joined block removes them. -/
theorem strip_counterexample :
    transform_story_text ["", "  x"] = "x" ∧ ¬ transform_story_text ["", "  x"] = "  x" := by
  constructor
  · rfl
  · decide

/-- C6 amended: the transformer strips all leading and trailing whitespace
of the whole joined block — blank lines and also whitespace at the start of
the first non-blank line and at the end of the last — leaving a core that
neither starts nor ends with whitespace, which is then processed by the
acceptance-criteria rules. -/
theorem strip_whole_block (content : List String) :
    ∃ pre suf : List Char,
      (joinNl content).toList = pre ++ (pyStrip (joinNl content)).toList ++ suf ∧
      pre.all pyIsSpace = true ∧ suf.all pyIsSpace = true ∧
      (pyStrip (joinNl content)).toList.takeWhile pyIsSpace = [] ∧
      (pyStrip (joinNl content)).toList.reverse.takeWhile pyIsSpace = [] ∧
      transform_story_text content =
        joinNl (transformLines (splitNl (pyStrip (joinNl content))) false) := by
  obtain ⟨pre, suf, h1, h2, h3⟩ := pyStripList_decomp (joinNl content).toList
  refine ⟨pre, suf, ?_, h2, h3, ?_, ?_, rfl⟩
  · rw [pyStrip, toList_asString]
    exact h1
  · rw [pyStrip, toList_asString]
    exact pyStripList_no_leading _
  · rw [pyStrip, toList_asString]
    exact pyStripList_no_trailing _

/-- Consecutive identifiers `c, c+1, ..., c+n-1`. -/
def idsFrom (c : Nat) : Nat → List Nat
  | 0 => []
  | n + 1 => c :: idsFrom (c + 1) n

theorem idsFrom_append : ∀ n m c, idsFrom c n ++ idsFrom (c + n) m = idsFrom c (n + m) := by
  intro n
  induction n with
  | zero => intro m c; simp [idsFrom]
  | succ k ih =>
    intro m c
    simp only [idsFrom, List.cons_append]
    rw [show c + (k + 1) = (c + 1) + k from by omega, ih]
    rw [show k + 1 + m = (k + m) + 1 from by omega]
    rfl

theorem idsFrom_length : ∀ n c, (idsFrom c n).length = n := by
  intro n
  induction n with
  | zero => intro c; rfl
  | succ k ih => intro c; simp [idsFrom, ih]

theorem mem_idsFrom : ∀ n c x, x ∈ idsFrom c n ↔ c ≤ x ∧ x < c + n := by
  intro n
  induction n with
  | zero => intro c x; simp [idsFrom]
  | succ k ih =>
    intro c x
    simp only [idsFrom, List.mem_cons, ih]
    omega

theorem emitStories_counter (epic_id : Nat) :
    ∀ ss : List Story, ∀ c, (emitStories epic_id c ss).2 = c + ss.length := by
  intro ss
  induction ss with
  | nil => intro c; simp [emitStories]
  | cons s ss ih =>
    intro c
    simp only [emitStories, ih, List.length_cons]
    omega

theorem emitStories_ids (epic_id : Nat) :
    ∀ ss : List Story, ∀ c,
      (emitStories epic_id c ss).1.map TaskFile.task_id = idsFrom c ss.length := by
  intro ss
  induction ss with
  | nil => intro c; simp [emitStories, idsFrom]
  | cons s ss ih =>
    intro c
    simp only [emitStories, List.map_cons, List.length_cons, idsFrom, ih]

theorem emitStories_fields (epic_id : Nat) :
    ∀ ss : List Story, ∀ c, ∀ t ∈ (emitStories epic_id c ss).1,
      t.is_epic = false ∧ t.parent = some epic_id ∧ t.status = "To Do" := by
  intro ss
  induction ss with
  | nil => intro c t ht; simp [emitStories] at ht
  | cons s ss ih =>
    intro c t ht
    simp only [emitStories, List.mem_cons] at ht
    rcases ht with h | h
    · subst h
      exact ⟨rfl, rfl, rfl⟩
    · exact ih (c + 1) t h

theorem emitStories_id_range (epic_id : Nat) (ss : List Story) (c : Nat) :
    ∀ t ∈ (emitStories epic_id c ss).1, c ≤ t.task_id ∧ t.task_id < c + ss.length := by
  intro t ht
  have : t.task_id ∈ (emitStories epic_id c ss).1.map TaskFile.task_id :=
    List.mem_map_of_mem TaskFile.task_id ht
  rw [emitStories_ids epic_id ss c] at this
  exact (mem_idsFrom ss.length c t.task_id).mp this

theorem emitStories_length (epic_id : Nat) (ss : List Story) (c : Nat) :
    (emitStories epic_id c ss).1.length = ss.length := by
  have h := congrArg List.length (emitStories_ids epic_id ss c)
  rw [List.length_map] at h
  rw [h, idsFrom_length]

theorem emitEpics_counter :
    ∀ es : List Epic, ∀ c, (emitEpics c es).2 = c + (emitEpics c es).1.length := by
  intro es
  induction es with
  | nil => intro c; simp [emitEpics]
  | cons e es ih =>
    intro c
    simp only [emitEpics, List.length_cons, List.length_append]
    rw [ih, emitStories_counter, emitStories_length]
    omega

theorem emitEpics_ids :
    ∀ es : List Epic, ∀ c,
      (emitEpics c es).1.map TaskFile.task_id = idsFrom c (emitEpics c es).1.length := by
  intro es
  induction es with
  | nil => intro c; simp [emitEpics, idsFrom]
  | cons e es ih =>
    intro c
    simp only [emitEpics, List.map_cons, List.map_append, List.length_cons, List.length_append]
    rw [emitStories_ids, emitStories_counter, ih, emitStories_length]
    rw [idsFrom_append]
    rfl

theorem emitEpics_id_lb (es : List Epic) (c : Nat) :
    ∀ t ∈ (emitEpics c es).1, c ≤ t.task_id := by
  intro t ht
  have h : t.task_id ∈ (emitEpics c es).1.map TaskFile.task_id :=
    List.mem_map_of_mem TaskFile.task_id ht
  rw [emitEpics_ids] at h
  exact ((mem_idsFrom _ c t.task_id).mp h).1

theorem emitEpics_story_parent :
    ∀ es : List Epic, ∀ c, ∀ t ∈ (emitEpics c es).1, t.is_epic = false →
      ∃ p, t.parent = some p ∧ c ≤ p ∧ p < t.task_id ∧
        (∃ u, u ∈ (emitEpics c es).1 ∧ u.is_epic = true ∧ u.task_id = p) ∧
        (∀ u ∈ (emitEpics c es).1, u.is_epic = true →
          u.task_id ≤ p ∨ t.task_id < u.task_id) := by
  intro es
  induction es with
  | nil => intro c t ht; simp [emitEpics] at ht
  | cons e es ih =>
    intro c t ht hte
    have hc1 : (emitStories c (c + 1) e.stories).2 = c + 1 + e.stories.length :=
      emitStories_counter c e.stories (c + 1)
    simp only [emitEpics, List.mem_cons, List.mem_append, hc1] at ht ⊢
    rcases ht with h | h | h
    · rw [h] at hte
      simp at hte
    · obtain ⟨hse, hsp, _⟩ := emitStories_fields c e.stories (c + 1) t h
      obtain ⟨hlo, hhi⟩ := emitStories_id_range c e.stories (c + 1) t h
      refine ⟨c, hsp, Nat.le_refl c, by omega, ⟨⟨c, e.name,
        "Parent Epic for related user stories.", "To Do", none, true⟩,
        Or.inl rfl, rfl, rfl⟩, ?_⟩
      intro u hu hue
      rcases hu with hu | hu | hu
      · rw [hu]
        exact Or.inl (Nat.le_refl c)
      · obtain ⟨hue2, _, _⟩ := emitStories_fields c e.stories (c + 1) u hu
        rw [hue] at hue2
        exact absurd hue2 (by simp)
      · have := emitEpics_id_lb es (c + 1 + e.stories.length) u hu
        exact Or.inr (by omega)
    · obtain ⟨p, hp, hcp, hplt, ⟨u0, hu0, hu0e, hu0id⟩, hbound⟩ :=
        ih (c + 1 + e.stories.length) t h hte
      refine ⟨p, hp, by omega, hplt, ⟨u0, Or.inr (Or.inr hu0), hu0e, hu0id⟩, ?_⟩
      intro u hu hue
      rcases hu with hu | hu | hu
      · rw [hu]
        exact Or.inl (by simp; omega)
      · obtain ⟨hue2, _, _⟩ := emitStories_fields c e.stories (c + 1) u hu
        rw [hue] at hue2
        exact absurd hue2 (by simp)
      · exact hbound u hu hue

/-- C2: identifiers come from one counter starting at 1, incremented once
per emitted file in emission order (the id sequence is `1, 2, ...`); every
story's parent is the id of an emitted epic file, strictly smaller than the
story's own id, and no other epic file's id lies between the two. -/
theorem counter_and_contiguity (epics : List Epic) :
    (emit epics).map TaskFile.task_id = idsFrom 1 (emit epics).length ∧
    ∀ t ∈ emit epics, t.is_epic = false →
      ∃ p, t.parent = some p ∧ p < t.task_id ∧
        (∃ u, u ∈ emit epics ∧ u.is_epic = true ∧ u.task_id = p) ∧
        (∀ u ∈ emit epics, u.is_epic = true → u.task_id ≤ p ∨ t.task_id < u.task_id) := by
  constructor
  · exact emitEpics_ids epics 1
  · intro t ht hte
    obtain ⟨p, hp, _, h3, h4, h5⟩ := emitEpics_story_parent epics 1 t ht hte
    exact ⟨p, hp, h3, h4, h5⟩

/-- C2 witness: one epic with one story; the story (id 2) has parent 1. -/
theorem counter_and_contiguity_witness :
    ∃ p, (some 1 : Option Nat) = some p ∧ p < 2 ∧
      (∃ u, u ∈ emit [⟨"E", [⟨"US-1", "t", []⟩]⟩] ∧ u.is_epic = true ∧ u.task_id = p) ∧
      (∀ u ∈ emit [⟨"E", [⟨"US-1", "t", []⟩]⟩], u.is_epic = true →
        u.task_id ≤ p ∨ 2 < u.task_id) :=
  (counter_and_contiguity [⟨"E", [⟨"US-1", "t", []⟩]⟩]).2
    ⟨2, "US-1 t", "", "To Do", some 1, false⟩ (by decide) rfl

theorem emitEpics_status :
    ∀ es : List Epic, ∀ c, ∀ t ∈ (emitEpics c es).1, t.status = "To Do" := by
  intro es
  induction es with
  | nil => intro c t ht; simp [emitEpics] at ht
  | cons e es ih =>
    intro c t ht
    simp only [emitEpics, List.mem_cons, List.mem_append] at ht
    rcases ht with h | h | h
    · rw [h]
    · exact (emitStories_fields c e.stories (c + 1) t h).2.2
    · exact ih _ t h

/-- C5 counterexample: a concrete emitted Story file whose status is not
the claimed string "to do" (the code writes "To Do"). -/
theorem story_status_counterexample :
    ∃ t, t ∈ emit [⟨"E", [⟨"US-1", "t", []⟩]⟩] ∧ t.is_epic = false ∧
      t.status = "To Do" ∧ ¬ t.status = "to do" :=
  ⟨⟨2, "US-1 t", "", "To Do", some 1, false⟩, by decide, rfl, rfl, by decide⟩

/-- C5 amended: every Story file written by the emitter has the fixed
default status "To Do". -/
theorem story_status_fixed (epics : List Epic) :
    ∀ t ∈ emit epics, t.is_epic = false → t.status = "To Do" :=
  fun t ht _ => emitEpics_status epics 1 t ht

/-- C5 witness: the concrete story file of a one-story emission. -/
theorem story_status_fixed_witness :
    (⟨2, "US-1 t", "", "To Do", some 1, false⟩ : TaskFile).status = "To Do" :=
  story_status_fixed [⟨"E", [⟨"US-1", "t", []⟩]⟩]
    ⟨2, "US-1 t", "", "To Do", some 1, false⟩ (by decide) rfl

/-- The epic-creating test of lines 25–26 for a single line: the new epic
name when the line matches the epic regex and contains neither
"Table of Contents" nor "Appendix". -/
def epicHeaderOf (line : String) : Option String :=
  match epicMatch line with
  | some name =>
    if containsStr line "Table of Contents" || containsStr line "Appendix" then none
    else some name
  | none => none

theorem startsHH_of_epicMatch (line : String) (nm : String)
    (h : epicMatch line = some nm) : startsHH line = true := by
  obtain ⟨c, rest, hcs, _⟩ := epicMatchL_shape line.toList nm h
  unfold startsHH
  rw [hcs]
  rfl

theorem epicMatch_eq_none_of_not_startsHH (line : String)
    (h : (!startsHH line) = true) : epicMatch line = none := by
  cases he : epicMatch line with
  | none => rfl
  | some nm =>
    rw [startsHH_of_epicMatch line nm he] at h
    exact absurd h (by simp)

theorem epicHeaderOf_none_of_no_match (line : String)
    (he : epicMatch line = none) : epicHeaderOf line = none := by
  unfold epicHeaderOf
  rw [he]

theorem mem_takeWhile_pred (p : α → Bool) :
    ∀ l : List α, ∀ x ∈ l.takeWhile p, p x = true := by
  intro l
  induction l with
  | nil => intro x hx; simp [List.takeWhile] at hx
  | cons a l ih =>
    intro x hx
    cases ha : p a with
    | false => simp [List.takeWhile_cons, ha] at hx
    | true =>
      simp only [List.takeWhile_cons, ha, if_true, List.mem_cons] at hx
      rcases hx with h | h
      · rw [h]
        exact ha
      · exact ih x h

theorem filterMap_headers_takeWhile (rest : List String) :
    (rest.takeWhile (fun l => !startsHH l)).filterMap epicHeaderOf = [] := by
  rw [List.filterMap_eq_nil_iff]
  intro line hline
  have hp := mem_takeWhile_pred (fun l => !startsHH l) rest line hline
  exact epicHeaderOf_none_of_no_match line (epicMatch_eq_none_of_not_startsHH line hp)

theorem parseLoop_names_aux :
    ∀ n : Nat, ∀ lines : List String, lines.length ≤ n → ∀ done cur,
      (parseLoop lines done cur).map Epic.name =
        done.map Epic.name ++ cur.toList.map Epic.name ++ lines.filterMap epicHeaderOf := by
  intro n
  induction n with
  | zero =>
    intro lines hlen done cur
    have hnil : lines = [] := List.length_eq_zero.mp (Nat.le_zero.mp hlen)
    subst hnil
    simp [parseLoop_nil]
  | succ k ih =>
    intro lines hlen done cur
    match lines with
    | [] => simp [parseLoop_nil]
    | line :: rest =>
      have hlen' : rest.length ≤ k := by simp at hlen; omega
      cases he : epicMatch line with
      | some name =>
        have hhd : epicHeaderOf line =
            if containsStr line "Table of Contents" || containsStr line "Appendix" then none
            else some name := by
          unfold epicHeaderOf
          rw [he]
        cases hx : (containsStr line "Table of Contents" || containsStr line "Appendix") with
        | true =>
          have hnone : epicHeaderOf line = none := by
            rw [hhd, hx]
            simp
          rw [parseLoop_cons_excluded line rest done cur name he hx]
          rw [ih rest hlen' done cur]
          simp [List.filterMap_cons, hnone]
        | false =>
          have hsome : epicHeaderOf line = some name := by
            rw [hhd, hx]
            simp
          rw [parseLoop_cons_epic line rest done cur name he hx]
          rw [ih rest hlen' (done ++ cur.toList) (some ⟨name, []⟩)]
          simp [List.filterMap_cons, hsome]
      | none =>
        have hhd : epicHeaderOf line = none := epicHeaderOf_none_of_no_match line he
        cases hs : storyMatch line with
        | some ct =>
          cases cur with
          | none =>
            rw [parseLoop_cons_story_nocur line rest done ct.1 ct.2 (by rw [hs])]
            rw [ih rest hlen' done none]
            simp [List.filterMap_cons, hhd]
          | some e =>
            rw [parseLoop_cons_story line rest done e ct.1 ct.2 (by rw [hs])]
            have hlen2 : (rest.dropWhile (fun l => !startsHH l)).length ≤ k :=
              le_trans (dropWhile_len_le _ rest) hlen'
            rw [ih (rest.dropWhile (fun l => !startsHH l)) hlen2 done
              (some (Epic.mk e.name (e.stories ++
                [Story.mk ct.1 ct.2 (rest.takeWhile (fun l => !startsHH l))])))]
            have hsplit : rest.filterMap epicHeaderOf =
                (rest.takeWhile (fun l => !startsHH l)).filterMap epicHeaderOf ++
                (rest.dropWhile (fun l => !startsHH l)).filterMap epicHeaderOf := by
              conv_lhs => rw [← List.takeWhile_append_dropWhile (fun l => !startsHH l) rest]
              rw [List.filterMap_append]
            simp [List.filterMap_cons, hhd, hsplit, filterMap_headers_takeWhile]
        | none =>
          rw [parseLoop_cons_other line rest done cur he hs]
          rw [ih rest hlen' done cur]
          simp [List.filterMap_cons, hhd]

/-- C7: the epics of a parsed document are exactly, in order, the lines
matching the level-2 heading regex whose full line text does not contain
the literal substring "Table of Contents" or "Appendix"; a line containing
either substring never produces an epic, whatever surrounds it. -/
theorem excluded_headings_never_epics (doc : String) :
    (parse_user_stories doc).map Epic.name = (splitNl doc).filterMap epicHeaderOf ∧
    ∀ line : String,
      (containsStr line "Table of Contents" = true ∨ containsStr line "Appendix" = true) →
      epicHeaderOf line = none := by
  constructor
  · have h := parseLoop_names_aux (splitNl doc).length (splitNl doc) (le_refl _) [] none
    simpa using h
  · intro line hx
    unfold epicHeaderOf
    cases epicMatch line with
    | none => rfl
    | some name =>
      rcases hx with h | h
      · simp [h]
      · simp [h]

/-- C7 witness: a level-2 heading containing "Appendix" yields no epic. -/
theorem excluded_headings_never_epics_witness :
    epicHeaderOf "## Appendix A" = none :=
  (excluded_headings_never_epics "").2 "## Appendix A" (Or.inr (by rfl))

/-- C9: a level-3 heading matching the story pattern, met while no epic is
open, is silently skipped: the scan continues on the remaining lines with
unchanged state, recording nothing and raising no error. -/
theorem story_without_epic_skipped (line : String) (rest : List String)
    (done : List Epic) (code title : String)
    (hs : storyMatch line = some (code, title)) :
    parseLoop (line :: rest) done none = parseLoop rest done none :=
  parseLoop_cons_story_nocur line rest done code title hs

/-- C9 witness: `### US-1: X` before any epic is a no-op of the scan. -/
theorem story_without_epic_skipped_witness :
    parseLoop ["### US-1: X", "body"] [] none = parseLoop ["body"] [] none :=
  story_without_epic_skipped "### US-1: X" ["body"] [] "US-1" "X" (by rfl)

/-- C10: a level-2 heading containing "Table of Contents" or "Appendix"
neither closes nor resets the open epic: the line is a no-op of the scan,
and a story heading following it still attaches to the most recently
created epic, its content window captured under that epic. -/
theorem excluded_heading_keeps_current_epic (ex : String) (rest : List String)
    (done : List Epic) (cur : Option Epic) (name : String)
    (he : epicMatch ex = some name)
    (hx : (containsStr ex "Table of Contents" || containsStr ex "Appendix") = true) :
    parseLoop (ex :: rest) done cur = parseLoop rest done cur ∧
    ∀ sl : String, ∀ code title : String, ∀ rest2 : List String, ∀ e : Epic,
      storyMatch sl = some (code, title) →
      parseLoop (ex :: sl :: rest2) done (some e) =
        parseLoop (rest2.dropWhile (fun l => !startsHH l)) done
          (some ⟨e.name, e.stories ++
            [⟨code, title, rest2.takeWhile (fun l => !startsHH l)⟩]⟩) := by
  constructor
  · exact parseLoop_cons_excluded ex rest done cur name he hx
  · intro sl code title rest2 e hsl
    rw [parseLoop_cons_excluded ex (sl :: rest2) done (some e) name he hx]
    exact parseLoop_cons_story sl rest2 done e code title hsl

/-- C10 witness: `## Appendix` between an epic and its story is inert and
the story still lands in that epic. -/
theorem excluded_heading_keeps_current_epic_witness :
    parseLoop ["## Appendix", "x"] [] (some ⟨"E", []⟩) =
      parseLoop ["x"] [] (some ⟨"E", []⟩) ∧
    parseLoop ["## Appendix", "### US-2: Y", "b"] [] (some ⟨"E", []⟩) =
      parseLoop (["b"].dropWhile (fun l => !startsHH l)) []
        (some ⟨"E", [] ++ [⟨"US-2", "Y", ["b"].takeWhile (fun l => !startsHH l)⟩]⟩) := by
  have h := excluded_heading_keeps_current_epic "## Appendix" ["x"] [] (some ⟨"E", []⟩)
    "Appendix" (by rfl) (by rfl)
  exact ⟨h.1, h.2 "### US-2: Y" "US-2" "Y" ["b"] ⟨"E", []⟩ (by rfl)⟩

/-- The file text of a task record for a given run timestamp. -/
def renderedWith (t : TaskFile) (dt : String) : String :=
  task_file_text t.task_id t.title t.status t.parent t.is_epic dt t.content

theorem clear_tasks_none (d : Dir) (n : String)
    (h : (startsWithStr "task-" n && endsWithStr ".md" n) = true) :
    clear_tasks d n = none := by
  unfold clear_tasks
  simp [h]

theorem writeTask_eval (dt : String) (d : Dir) (t : TaskFile) (n : String) :
    writeTask dt d t n =
      if n = task_file_name t.task_id t.title then some (renderedWith t dt) else d n := by
  rfl

theorem writeAll_congr (files : List TaskFile) (dt : String) :
    ∀ d d' : Dir, ∀ n : String, d n = d' n →
      writeAll files dt d n = writeAll files dt d' n := by
  induction files with
  | nil => intro d d' n h; exact h
  | cons f fs ih =>
    intro d d' n h
    show writeAll fs dt (writeTask dt d f) n = writeAll fs dt (writeTask dt d' f) n
    apply ih
    rw [writeTask_eval, writeTask_eval]
    by_cases hn : n = task_file_name f.task_id f.title
    · simp [hn]
    · simp [hn, h]

theorem writeAll_date (files : List TaskFile) (dt1 dt2 : String) :
    ∀ d1 d2 : Dir, ∀ n : String,
      ((d1 n = none ∧ d2 n = none) ∨
        (∃ t : TaskFile, d1 n = some (renderedWith t dt1) ∧ d2 n = some (renderedWith t dt2))) →
      ((writeAll files dt1 d1 n = none ∧ writeAll files dt2 d2 n = none) ∨
        (∃ t : TaskFile, writeAll files dt1 d1 n = some (renderedWith t dt1) ∧
          writeAll files dt2 d2 n = some (renderedWith t dt2))) := by
  induction files with
  | nil => intro d1 d2 n h; exact h
  | cons f fs ih =>
    intro d1 d2 n h
    show ((writeAll fs dt1 (writeTask dt1 d1 f) n = none ∧
            writeAll fs dt2 (writeTask dt2 d2 f) n = none) ∨ _)
    apply ih
    by_cases hn : n = task_file_name f.task_id f.title
    · right
      exact ⟨f, by rw [writeTask_eval]; simp [hn], by rw [writeTask_eval]; simp [hn]⟩
    · rcases h with ⟨h1, h2⟩ | ⟨t, h1, h2⟩
      · left
        constructor
        · rw [writeTask_eval]
          simp [hn, h1]
        · rw [writeTask_eval]
          simp [hn, h2]
      · right
        refine ⟨t, ?_, ?_⟩
        · rw [writeTask_eval]
          simp [hn, h1]
        · rw [writeTask_eval]
          simp [hn, h2]

/-- C8: a run of `main` fully determines every `task-*.md` entry of the
destination directory, independently of which `task-*.md` files existed
before (the clear step deletes them all): two runs on the same document
agree on every such name when run at the same timestamp; across different
timestamps the set of written names is the same and any two written texts
are renderings of one and the same task record, differing only in the
`created_date` argument. -/
theorem rerun_idempotent (doc dt dt2 : String) (d1 d2 : Dir) (n : String) :
    ((startsWithStr "task-" n && endsWithStr ".md" n) = true →
      run_main doc dt d1 n = run_main doc dt d2 n) ∧
    ((startsWithStr "task-" n && endsWithStr ".md" n) = true →
      (run_main doc dt d1 n = none ↔ run_main doc dt2 d2 n = none)) ∧
    ((startsWithStr "task-" n && endsWithStr ".md" n) = true →
      ∀ s1 s2, run_main doc dt d1 n = some s1 → run_main doc dt2 d2 n = some s2 →
        ∃ t : TaskFile, s1 = renderedWith t dt ∧ s2 = renderedWith t dt2) := by
  refine ⟨?_, ?_, ?_⟩
  · intro h
    exact writeAll_congr (pipeline doc) dt (clear_tasks d1) (clear_tasks d2) n
      (by rw [clear_tasks_none d1 n h, clear_tasks_none d2 n h])
  · intro h
    have hw := writeAll_date (pipeline doc) dt dt2 (clear_tasks d1) (clear_tasks d2) n
      (Or.inl ⟨clear_tasks_none d1 n h, clear_tasks_none d2 n h⟩)
    show (writeAll (pipeline doc) dt (clear_tasks d1) n = none ↔
      writeAll (pipeline doc) dt2 (clear_tasks d2) n = none)
    rcases hw with ⟨h1, h2⟩ | ⟨t, h1, h2⟩
    · rw [h1, h2]
    · rw [h1, h2]
      simp
  · intro h s1 s2 h1 h2
    have hw := writeAll_date (pipeline doc) dt dt2 (clear_tasks d1) (clear_tasks d2) n
      (Or.inl ⟨clear_tasks_none d1 n h, clear_tasks_none d2 n h⟩)
    rcases hw with ⟨ha, hb⟩ | ⟨t, ha, hb⟩
    · rw [show run_main doc dt d1 n = writeAll (pipeline doc) dt (clear_tasks d1) n from rfl,
        ha] at h1
      exact absurd h1 (by simp)
    · rw [show run_main doc dt d1 n = writeAll (pipeline doc) dt (clear_tasks d1) n from rfl,
        ha] at h1
      rw [show run_main doc dt2 d2 n = writeAll (pipeline doc) dt2 (clear_tasks d2) n from rfl,
        hb] at h2
      exact ⟨t, (Option.some.inj h1).symm, (Option.some.inj h2).symm⟩

/-- C8 witness: the example document run against an empty directory and a
directory holding a stale `task-9 - junk.md` produces the same entry at
`task-1 - Alpha Epic.md`; across two timestamps the entry is the rendering
of the same task record. -/
theorem rerun_idempotent_witness :
    (run_main exampleDoc "2025-01-01 00:00" (fun _ => none) "task-1 - Alpha Epic.md" =
      run_main exampleDoc "2025-01-01 00:00"
        (fun m => if m = "task-9 - junk.md" then some "junk" else none)
        "task-1 - Alpha Epic.md") ∧
    (run_main exampleDoc "2025-01-01 00:00" (fun _ => none) "task-1 - Alpha Epic.md" = none ↔
      run_main exampleDoc "2025-01-02 00:00"
        (fun m => if m = "task-9 - junk.md" then some "junk" else none)
        "task-1 - Alpha Epic.md" = none) ∧
    (∃ t : TaskFile,
      renderedWith ⟨1, "Alpha Epic", "Parent Epic for related user stories.", "To Do", none, true⟩
          "2025-01-01 00:00" = renderedWith t "2025-01-01 00:00" ∧
      renderedWith ⟨1, "Alpha Epic", "Parent Epic for related user stories.", "To Do", none, true⟩
          "2025-01-02 00:00" = renderedWith t "2025-01-02 00:00") := by
  have hp : pipeline exampleDoc =
      [⟨1, "Alpha Epic", "Parent Epic for related user stories.", "To Do", none, true⟩,
       ⟨2, "US-100 Do Thing", "## Acceptance Criteria\n- [ ] Works", "To Do", some 1, false⟩] := by
    rw [pipeline, parse_exampleDoc]
    rfl
  have h := rerun_idempotent exampleDoc "2025-01-01 00:00" "2025-01-02 00:00"
    (fun _ => none) (fun m => if m = "task-9 - junk.md" then some "junk" else none)
    "task-1 - Alpha Epic.md"
  refine ⟨h.1 (by rfl), h.2.1 (by rfl), ?_⟩
  refine h.2.2 (by rfl)
    (renderedWith ⟨1, "Alpha Epic", "Parent Epic for related user stories.", "To Do", none, true⟩
      "2025-01-01 00:00")
    (renderedWith ⟨1, "Alpha Epic", "Parent Epic for related user stories.", "To Do", none, true⟩
      "2025-01-02 00:00") ?_ ?_
  · show writeAll (pipeline exampleDoc) "2025-01-01 00:00"
      (clear_tasks (fun _ => none)) "task-1 - Alpha Epic.md" = _
    rw [hp]
    rfl
  · show writeAll (pipeline exampleDoc) "2025-01-02 00:00"
      (clear_tasks (fun m => if m = "task-9 - junk.md" then some "junk" else none))
      "task-1 - Alpha Epic.md" = _
    rw [hp]
    rfl
